import Mathlib

/-!
# polo: command dispatcher and streaming aggregator

A shallow embedding of `src/command/command.go` and `src/chat/chat.go`.

Modelling conventions.

* A Go `string` is a Lean `String`, read as its sequence of Unicode code points.
  Go strings are byte sequences; for well-formed UTF-8 text the byte-level
  functions used here (`strings.HasPrefix`, `strings.Split` on a one-byte
  separator, `+`) agree with their code-point-level counterparts, and
  `strings.TrimSpace` is defined on code points in Go as well.
* A Go `error` is a value of `GoError`; a nil error is `none : Option GoError`.
* A run-time panic and a call that never returns are explicit outcomes.
* Terminal output (`fmt.Printf`, `println`, colours) is not part of the state.
-/

set_option autoImplicit false

namespace Polo

/-! ## Go runtime and standard library -/

/-- Go `error` values met in the sources. `EOF` is the sentinel `io.EOF`,
`Canceled` is the sentinel `context.Canceled`, `errorString` is what
`fmt.Errorf` and `errors.New` build. -/
inductive GoError where
  | EOF
  | Canceled
  | errorString (msg : String)
  deriving DecidableEq, Repr

/-- The method `Error()` of an `error`. -/
def GoError.Error : GoError → String
  | .EOF => "EOF"
  | .Canceled => "context canceled"
  | .errorString msg => msg

/-- How a Go call ends: it returns a value, it panics, or it never returns
(a blocking receive on a connection that delivers nothing more). -/
inductive Outcome (α : Type) where
  | returned (a : α)
  | panicked (msg : String)
  | blocked
  deriving DecidableEq, Repr

/-- Go `strings.HasPrefix(s, prefix)`:
`len(s) >= len(prefix) && s[:len(prefix)] == prefix`. -/
def HasPrefix (s pre : String) : Bool :=
  decide (pre.data.length ≤ s.data.length) && (s.data.take pre.data.length == pre.data)

/-- Splitting a code-point list at every occurrence of `sep`; `cur` is the
piece being read, in reverse. -/
def splitLoop (sep : Char) : List Char → List Char → List (List Char)
  | [], cur => [cur.reverse]
  | c :: cs, cur =>
    if c = sep then cur.reverse :: splitLoop sep cs [] else splitLoop sep cs (c :: cur)

/-- Go `strings.Split(s, sep)` for a separator of one character (the sources
use `" "` and `"\n"`): the pieces between the occurrences of the separator,
always at least one piece. -/
def Split (s : String) (sep : Char) : List String :=
  (splitLoop sep s.data []).map String.mk

/-- Go `unicode.IsSpace`: the code points with the Unicode White_Space property. -/
def isSpace (c : Char) : Bool :=
  let n := c.toNat
  (0x09 ≤ n && n ≤ 0x0d) || n == 0x20 || n == 0x85 || n == 0xa0 || n == 0x1680 ||
  (0x2000 ≤ n && n ≤ 0x200a) || n == 0x2028 || n == 0x2029 || n == 0x202f ||
  n == 0x205f || n == 0x3000

/-- Go `strings.TrimSpace`: leading and trailing white space removed. -/
def TrimSpace (s : String) : String :=
  ⟨((s.data.dropWhile isSpace).reverse.dropWhile isSpace).reverse⟩

/-- Go `strings.Contains(s, substr)`. -/
def Contains (s substr : String) : Bool :=
  s.data.tails.any (fun t => substr.data.isPrefixOf t)

/-- The verb `%.*s` of `fmt` with precision `n`: the string cut to its first
`n` code points. -/
def truncate (n : Nat) (s : String) : String :=
  ⟨s.data.take n⟩

/-- The verb `%-8s` of `fmt` with width `n`: the string padded with spaces on
the right up to `n` code points. -/
def padRight (n : Nat) (s : String) : String :=
  ⟨s.data ++ List.replicate (n - s.data.length) ' '⟩

/-! ## `command.go`: the command table -/

/-- The type `cmd`. -/
structure cmd where
  name : String
  description : String
  deriving DecidableEq, Repr

/-- The package variable `availableCommands`. -/
def availableCommands : List cmd :=
  [ { name := ":history", description := "Show conversation history." },
    { name := ":summary", description := "Show conversation summary." },
    { name := ":move", description := "Change HEAD to another message." },
    { name := ":config", description := "Open configuration directory." },
    { name := ":editor", description := "Open an embedded text editor." },
    { name := ":exit", description := "Exit the program." } ]

/-- The loop of `matchCommand` from the entry it is about to visit, with the
values of the locals `matched` and `matchedCmd`. -/
def matchCommandLoop (input : String) : List cmd → Bool → String → String × Bool
  | [], matched, matchedCmd => (matchedCmd, matched)
  | c :: rest, matched, matchedCmd =>
    if HasPrefix c.name input then
      if matched then
        ("", false)
      else
        matchCommandLoop input rest true c.name
    else
      matchCommandLoop input rest matched matchedCmd

/-- The function `matchCommand` over a given value of the command table. -/
def matchCommandIn (table : List cmd) (input : String) : String × Bool :=
  matchCommandLoop input table false ""

/-- The function `matchCommand`. -/
def matchCommand (input : String) : String × Bool :=
  matchCommandIn availableCommands input

/-- The function `unknownCommand`: the help text listing the table. -/
def unknownCommand : String :=
  availableCommands.foldl
    (fun output c => output ++ ("  " ++ padRight 8 c.name ++ " - " ++ c.description ++ "\n"))
    "unknown command.\n\n"

/-! ## `command.go`: the conversation and the commands -/

/-- The fields of `conv.Message` the commands read. -/
structure Message where
  Sha1 : String
  ParentSha1 : String
  Role : String
  Content : String
  Head : Bool
  deriving DecidableEq, Repr

/-- The methods of the interface `conv.Conversation` the commands call, over
the state `σ` of the object behind the interface. Package `conv` is not among
the files embedded here, so the methods are parameters: `ChangeHead` and
`GetSummary` may change the state, the two listings only read it. -/
structure Conversation (σ : Type) where
  GetMessages : σ → List Message
  MessagesFromHead : σ → List Message
  GetSummary : σ → String × σ
  ChangeHead : String → σ → Except GoError Message × σ

/-- The function `changeHead`: the returned error and the state afterwards. -/
def changeHead {σ : Type} (sha1Partial : String) (context : Conversation σ) (s : σ) :
    Option GoError × σ :=
  if sha1Partial = "" then
    (some (.errorString "No SHA1 partial provided"), s)
  else
    match context.ChangeHead sha1Partial s with
    | (.error err, s') => (some err, s')
    | (.ok _msg, s') => (none, s')

/-- The function `showContext`: it reads `GetMessages` and prints. -/
def showContext {σ : Type} (conv : Conversation σ) (s : σ) : σ :=
  let _messages := conv.GetMessages s
  s

/-- The function `showSummary`: it calls `GetSummary` and prints. -/
def showSummary {σ : Type} (conv : Conversation σ) (s : σ) : σ :=
  (conv.GetSummary s).2

/-- The operating-system services `openEditor` uses. `CreateTemp` is the name
of the fresh, empty temp file or the error of `os.CreateTemp`; `WriteString` is
the error, if any, of writing the given text to it; `Run` is the editor process
started with the given argument vector on a file holding the given text: its
error, if any, and the text of the file when it ends; `ReadFile` is the error,
if any, of `os.ReadFile`. -/
structure EditorEnv where
  CreateTemp : Except GoError String
  WriteString : String → Option GoError
  EDITOR : String
  GOOS : String
  Run : List String → String → Option GoError × String
  ReadFile : Option GoError

/-- The text `d` that `openEditor` builds for one message: a header line and
one comment line for each line of the content. -/
def editorComment (msg : Message) : String :=
  let head := if msg.Head then "Head" else ""
  let d := "#\n# " ++ truncate 6 msg.Sha1 ++ " -> " ++ truncate 6 msg.ParentSha1 ++
    " [" ++ msg.Role ++ "] " ++ head ++ "\n"
  (Split msg.Content '\n').foldl (fun d context => d ++ ("#   " ++ context ++ "\n")) d

/-- The text `comments` that `openEditor` writes to the temp file: two empty
lines, then the messages from the last element of `s` down to the first. -/
def editorTemplate (s : List Message) : String :=
  s.reverse.foldl (fun comments msg => comments ++ editorComment msg) "\n\n"

/-- The last loop of `openEditor`: the lines of the content that do not start
with `#`, each followed by a newline. -/
def editorResult (content : String) : String :=
  (Split content '\n').foldl
    (fun result d => if !HasPrefix d "#" then result ++ (d ++ "\n") else result) ""

/-- The editor command `openEditor` chooses. -/
def editorCommand (env : EditorEnv) : String :=
  if env.EDITOR = "" then
    if env.GOOS = "windows" then "notepad.exe" else "vim"
  else env.EDITOR

/-- The arguments `openEditor` starts the editor with: `--wait` is added for
an editor whose name contains `code`. -/
def editorArgv (env : EditorEnv) (tmpName : String) : List String :=
  let editor := editorCommand env
  if Contains editor "code" then [editor, "--wait", tmpName] else [editor, tmpName]

/-- The function `openEditor`. It leaves the conversation as it is. -/
def openEditor {σ : Type} (conv : Conversation σ) (env : EditorEnv) (st : σ) :
    String × Bool × Option GoError :=
  match env.CreateTemp with
  | .error err =>
    ("", false, some (.errorString ("failed to create a temp file: " ++ err.Error)))
  | .ok tmpName =>
    let comments := editorTemplate (conv.MessagesFromHead st)
    match env.WriteString comments with
    | some err =>
      ("", false, some (.errorString ("failed to write to the temp file: " ++ err.Error)))
    | none =>
      match env.Run (editorArgv env tmpName) comments with
      | (some err, _) =>
        ("", false, some (.errorString ("failed to open editor: " ++ err.Error)))
      | (none, content) =>
        match env.ReadFile with
        | some err =>
          ("", false,
            some (.errorString ("failed to read the edited content: " ++ err.Error)))
        | none =>
          let result := editorResult content
          if (TrimSpace result).length = 0 then ("", false, none) else (result, true, none)

/-- The function `Parse`: how the call ends and the state of the conversation
afterwards. Indexing `commands[0]` and `commands[1]` panics when the slice is
too short. -/
def Parse {σ : Type} (input : String) (conv : Conversation σ) (env : EditorEnv) (s : σ) :
    Outcome (String × Bool × Option GoError) × σ :=
  let trimmedInput := TrimSpace input
  let commands := Split trimmedInput ' '
  match commands with
  | [] => (.panicked "runtime error: index out of range [0] with length 0", s)
  | first :: args =>
    let (matchedCmd, found) := matchCommand first
    if !found then
      (.returned ("", false, some (.errorString unknownCommand)), s)
    else if matchedCmd = ":history" then
      (.returned ("", false, none), showContext conv s)
    else if matchedCmd = ":summary" then
      (.returned ("", false, none), showSummary conv s)
    else if matchedCmd = ":move" then
      match args with
      | [] => (.panicked "runtime error: index out of range [1] with length 1", s)
      | arg :: _ =>
        let (err, s') := changeHead arg conv s
        (.returned ("", false, err), s')
    else if matchedCmd = ":config" then
      (.returned ("", false, none), s)
    else if matchedCmd = ":editor" then
      (.returned (openEditor conv env s), s)
    else
      (.returned ("", false, some (.errorString "unknown command")), s)

/-! ## `chat.go`: the streaming aggregator -/

/-- The type `openai.ChatCompletionStreamChoiceDelta`, its text. -/
structure ChatCompletionStreamChoiceDelta where
  Content : String
  deriving DecidableEq, Repr

/-- The type `openai.ChatCompletionStreamChoice`. -/
structure ChatCompletionStreamChoice where
  Delta : ChatCompletionStreamChoiceDelta
  deriving DecidableEq, Repr

/-- The type `openai.ChatCompletionStreamResponse`. -/
structure ChatCompletionStreamResponse where
  Choices : List ChatCompletionStreamChoice
  deriving DecidableEq, Repr

/-- An open `openai.ChatCompletionStream`, as the results its successive
`Recv()` calls give: a response, or an error (`io.EOF` at the end of the
stream). After the last listed result `Recv()` does not return. -/
abbrev ChatCompletionStream := List (Except GoError ChatCompletionStreamResponse)

/-- The receive loop of `Stream` with the value of the local `data`. -/
def StreamLoop : ChatCompletionStream → String → Outcome (String × Option GoError)
  | [], _ => .blocked
  | .error err :: _, data =>
    if err = GoError.EOF then .returned (data, none) else .returned ("", some err)
  | .ok resp :: rest, data =>
    match resp.Choices with
    | [] => .panicked "runtime error: index out of range [0] with length 0"
    | choice :: _ => StreamLoop rest (data ++ choice.Delta.Content)

/-- The function `Stream`, given what `oc.CreateChatCompletionStream(ctx, ...)`
returns. The context `ctx` is handed to the client and never inspected by
`Stream` itself: a cancellation reaches `Stream` only as the result of the
client call it interrupts, the opening of the stream or a `Recv()`. -/
def Stream (created : Except GoError ChatCompletionStream) :
    Outcome (String × Option GoError) :=
  match created with
  | .error err => .returned ("", some err)
  | .ok stream => StreamLoop stream ""

/-- A response whose first choice carries the text `c`. -/
def chunk (c : String) : ChatCompletionStreamResponse :=
  { Choices := [{ Delta := { Content := c } }] }

/-- The text a response delivers: the content of its first choice, if any. -/
def deltaOf (resp : ChatCompletionStreamResponse) : Option String :=
  resp.Choices.head?.map (fun choice => choice.Delta.Content)

/-! ## Definitions used to state the properties -/

/-- The lines of a text that do not start with `#`, in their order. -/
def keptLines (text : String) : List String :=
  (Split text '\n').filter (fun d => decide (d.data.head? ≠ some '#'))

/-- The lines of a text that do not start with `#`, each followed by a newline. -/
def keptText (text : String) : String :=
  String.join ((keptLines text).map (fun d => d ++ "\n"))

/-- A text whose lines are all empty or start with `#`. -/
def CommentLines (l : List Char) : Prop :=
  ∀ d ∈ splitLoop '\n' l [], d = [] ∨ d.head? = some '#'

/-- A text that ends in a newline and whose lines are all empty or start
with `#`. -/
def CommentBlock (l : List Char) : Prop :=
  ∃ l', l = l' ++ ['\n'] ∧ CommentLines l'

/-- The entries of a table whose name starts with the token. -/
def startingWith (table : List cmd) (t : String) : List cmd :=
  table.filter (fun c => decide (t.data <+: c.name.data))

/-- A conversation whose state counts the calls of `ChangeHead`. -/
def countingConversation : Conversation Nat where
  GetMessages := fun _ => []
  MessagesFromHead := fun _ => []
  GetSummary := fun n => ("", n)
  ChangeHead := fun _ n => (.error (GoError.errorString "not found"), n + 1)

/-- An editor environment in which every step succeeds and the editor leaves
the file as it found it. -/
def idleEditorEnv : EditorEnv where
  CreateTemp := .ok "/tmp/aski-editor-1"
  WriteString := fun _ => none
  EDITOR := ""
  GOOS := "linux"
  Run := fun _ text => (none, text)
  ReadFile := none

/-- An editor environment in which every step succeeds and the editor replaces
the text of the file by `text`. -/
def typingEditorEnv (text : String) : EditorEnv where
  CreateTemp := .ok "/tmp/aski-editor-1"
  WriteString := fun _ => none
  EDITOR := "code"
  GOOS := "linux"
  Run := fun _ _ => (none, text)
  ReadFile := none

/-- A conversation of two messages, the first with a content of several lines,
one of them empty. -/
def sampleConversation : Conversation Unit where
  GetMessages := fun _ => []
  MessagesFromHead := fun _ =>
    [⟨"0123456789", "", "user", "a\n\nb", false⟩, ⟨"abcdef0123", "0123456789", "assistant", "", true⟩]
  GetSummary := fun u => ("", u)
  ChangeHead := fun _ u => (.error (GoError.errorString "not found"), u)

/-! ## Facts about the library functions -/

theorem HasPrefix_iff (s pre : String) : HasPrefix s pre = true ↔ pre.data <+: s.data := by
  unfold HasPrefix
  rw [List.prefix_iff_eq_take]
  constructor
  · intro h
    simp only [Bool.and_eq_true, decide_eq_true_eq, beq_iff_eq] at h
    exact h.2.symm
  · intro h
    simp only [Bool.and_eq_true, decide_eq_true_eq, beq_iff_eq]
    refine ⟨?_, h.symm⟩
    have := congrArg List.length h
    simp only [List.length_take] at this
    omega

theorem HasPrefix_hash (d : String) : HasPrefix d "#" = decide (d.data.head? = some '#') := by
  rcases d with ⟨l⟩
  cases l with
  | nil => rfl
  | cons c cs =>
    by_cases h : c = '#'
    · subst h
      simp [HasPrefix]
    · simp [HasPrefix, h]

theorem splitLoop_append_sep (sep : Char) (x y cur : List Char) :
    splitLoop sep (x ++ sep :: y) cur = splitLoop sep x cur ++ splitLoop sep y [] := by
  induction x generalizing cur with
  | nil => simp [splitLoop]
  | cons c x ih =>
    by_cases h : c = sep
    · simp [splitLoop, h, ih]
    · simp [splitLoop, h, ih]

theorem splitLoop_no_sep (sep : Char) (x cur : List Char) (h : sep ∉ x) :
    splitLoop sep x cur = [cur.reverse ++ x] := by
  induction x generalizing cur with
  | nil => simp [splitLoop]
  | cons c x ih =>
    have hc : ¬ c = sep := fun e => h (by simp [e])
    have hx : sep ∉ x := fun e => h (by simp [e])
    simp [splitLoop, hc, ih _ hx]

theorem splitLoop_pieces (sep : Char) (l cur : List Char) (h : sep ∉ cur) :
    ∀ d ∈ splitLoop sep l cur, sep ∉ d := by
  induction l generalizing cur with
  | nil =>
    intro d hd
    simp [splitLoop] at hd
    subst hd
    simpa using h
  | cons c l ih =>
    intro d hd
    by_cases hc : c = sep
    · simp only [splitLoop, hc, if_true, List.mem_cons] at hd
      rcases hd with hd | hd
      · subst hd
        simpa using h
      · exact ih [] (by simp) d hd
    · simp only [splitLoop, hc, if_false] at hd
      refine ih (c :: cur) ?_ d hd
      intro hmem
      rcases List.mem_cons.1 hmem with e | e
      · exact hc e.symm
      · exact h e

theorem TrimSpace_length_eq_zero (s : String) :
    (TrimSpace s).length = 0 ↔ ∀ c ∈ s.data, isSpace c = true := by
  unfold TrimSpace
  rw [String.length_mk, List.length_reverse, List.length_eq_zero, List.dropWhile_eq_nil_iff]
  constructor
  · intro h
    have hnil : s.data.dropWhile isSpace = [] := by
      by_contra hne
      have hhead := List.head_dropWhile_not isSpace s.data hne
      have hmem : (s.data.dropWhile isSpace).head hne ∈ (s.data.dropWhile isSpace).reverse :=
        List.mem_reverse.2 (List.head_mem hne)
      rw [h _ hmem] at hhead
      exact absurd hhead (by decide)
    exact List.dropWhile_eq_nil_iff.1 hnil
  · intro h
    have hnil : s.data.dropWhile isSpace = [] := List.dropWhile_eq_nil_iff.2 h
    simp [hnil]

theorem foldl_append_data {α : Type} (f : α → String) (l : List α) (acc : String) :
    (l.foldl (fun a x => a ++ f x) acc).data = acc.data ++ l.flatMap (fun x => (f x).data) := by
  induction l generalizing acc with
  | nil => simp
  | cons x l ih => simp [ih, List.flatMap_cons]

theorem String_join_data (l : List String) :
    (String.join l).data = l.flatMap String.data := by
  unfold String.join
  have := foldl_append_data (fun x : String => x) l ""
  simpa using this

/-! ## The editor command -/

theorem editorResult_foldl_data (l : List String) (acc : String) :
    (l.foldl (fun result d => if !HasPrefix d "#" then result ++ (d ++ "\n") else result)
        acc).data =
      acc.data ++ (l.filter (fun d => decide (d.data.head? ≠ some '#'))).flatMap
        (fun d => d.data ++ ['\n']) := by
  induction l generalizing acc with
  | nil => simp
  | cons d l ih =>
    rw [List.foldl_cons, ih]
    by_cases h : d.data.head? = some '#'
    · simp [HasPrefix_hash, h]
    · simp [HasPrefix_hash, h, List.flatMap_cons]

theorem editorResult_eq_keptText (text : String) : editorResult text = keptText text := by
  apply String.ext
  unfold editorResult keptText keptLines
  rw [editorResult_foldl_data, String_join_data]
  simp [List.flatMap_def, Function.comp_def]

theorem keptText_blank_iff (text : String) :
    (TrimSpace (keptText text)).length = 0 ↔
      ¬ ∃ d ∈ keptLines text, ∃ c ∈ d.data, isSpace c = false := by
  rw [TrimSpace_length_eq_zero]
  unfold keptText
  rw [String_join_data]
  constructor
  · rintro h ⟨d, hd, c, hc, hsp⟩
    have : isSpace c = true := by
      apply h
      simp only [List.mem_flatMap, List.mem_map]
      exact ⟨d ++ "\n", ⟨d, hd, rfl⟩, by simp [hc]⟩
    rw [this] at hsp
    exact absurd hsp (by decide)
  · intro h c hc
    simp only [List.mem_flatMap, List.mem_map] at hc
    obtain ⟨_, ⟨d, hd, rfl⟩, hc⟩ := hc
    rw [String.data_append, List.mem_append] at hc
    rcases hc with hc | hc
    · by_contra hsp
      exact h ⟨d, hd, c, hc, by simpa using hsp⟩
    · have : c = '\n' := by simpa using hc
      subst this
      decide

theorem openEditor_read {σ : Type} (conv : Conversation σ) (env : EditorEnv) (st : σ)
    (tmpName text : String) (hc : env.CreateTemp = .ok tmpName)
    (hw : env.WriteString (editorTemplate (conv.MessagesFromHead st)) = none)
    (hr : env.Run (editorArgv env tmpName) (editorTemplate (conv.MessagesFromHead st)) =
      (none, text))
    (hf : env.ReadFile = none) :
    openEditor conv env st =
      if (TrimSpace (editorResult text)).length = 0 then ("", false, none)
      else (editorResult text, true, none) := by
  unfold openEditor
  simp only [hc, hw, hr, hf]

theorem CommentLines_join (x y : List Char) (hx : CommentLines x) (hy : CommentLines y) :
    CommentLines (x ++ '\n' :: y) := by
  intro d hd
  rw [splitLoop_append_sep, List.mem_append] at hd
  rcases hd with hd | hd
  · exact hx d hd
  · exact hy d hd

theorem CommentLines_nil : CommentLines [] := by
  intro d hd
  simp [splitLoop] at hd
  exact Or.inl hd

theorem CommentLines_line (l : List Char) (hnl : '\n' ∉ l) (h : l = [] ∨ l.head? = some '#') :
    CommentLines l := by
  intro d hd
  rw [splitLoop_no_sep _ _ _ hnl] at hd
  simp at hd
  subst hd
  exact h

theorem CommentBlock_line (l : List Char) (hnl : '\n' ∉ l) (h : l = [] ∨ l.head? = some '#') :
    CommentBlock (l ++ ['\n']) :=
  ⟨l, rfl, CommentLines_line l hnl h⟩

theorem CommentBlock_append (x y : List Char) (hx : CommentBlock x) (hy : CommentBlock y) :
    CommentBlock (x ++ y) := by
  obtain ⟨x', rfl, hx'⟩ := hx
  obtain ⟨y', rfl, hy'⟩ := hy
  refine ⟨x' ++ '\n' :: y', by simp, CommentLines_join x' y' hx' hy'⟩

theorem CommentBlock_lines (x : List Char) (hx : CommentBlock x) : CommentLines x := by
  obtain ⟨x', rfl, hx'⟩ := hx
  exact CommentLines_join x' [] hx' CommentLines_nil

theorem CommentBlock_foldl {α : Type} (f : α → String) (l : List α) (acc : String)
    (hacc : CommentBlock acc.data) (hf : ∀ x ∈ l, CommentBlock (f x).data) :
    CommentBlock (l.foldl (fun a x => a ++ f x) acc).data := by
  induction l generalizing acc with
  | nil => simpa using hacc
  | cons x l ih =>
    rw [List.foldl_cons]
    apply ih
    · rw [String.data_append]
      exact CommentBlock_append _ _ hacc (hf x (by simp))
    · intro y hy
      exact hf y (by simp [hy])

theorem editorComment_block (msg : Message) (h1 : '\n' ∉ msg.Sha1.data)
    (h2 : '\n' ∉ msg.ParentSha1.data) (h3 : '\n' ∉ msg.Role.data) :
    CommentBlock (editorComment msg).data := by
  unfold editorComment
  apply CommentBlock_foldl (fun context => "#   " ++ context ++ "\n")
  · have hhead : '\n' ∉ (if msg.Head = true then "Head" else "").data := by
      cases msg.Head <;> decide
    have e : ("#\n# " ++ truncate 6 msg.Sha1 ++ " -> " ++ truncate 6 msg.ParentSha1 ++ " [" ++
          msg.Role ++ "] " ++ (if msg.Head = true then "Head" else "") ++ "\n").data =
        (['#'] ++ ['\n']) ++ (('#' :: ' ' :: (msg.Sha1.data.take 6 ++ " -> ".data ++
          msg.ParentSha1.data.take 6 ++ " [".data ++ msg.Role.data ++ "] ".data ++
          (if msg.Head = true then "Head" else "").data)) ++ ['\n']) := by
      simp [String.data_append, truncate]
    rw [e]
    apply CommentBlock_append
    · exact CommentBlock_line ['#'] (by decide) (Or.inr rfl)
    · refine CommentBlock_line _ ?_ (Or.inr rfl)
      have t1 : '\n' ∉ msg.Sha1.data.take 6 := fun hm => h1 (List.mem_of_mem_take hm)
      have t2 : '\n' ∉ msg.ParentSha1.data.take 6 := fun hm => h2 (List.mem_of_mem_take hm)
      simp only [List.mem_cons, List.mem_append, not_or]
      refine ⟨by decide, by decide, ⟨⟨⟨⟨⟨t1, by decide⟩, t2⟩, by decide⟩, h3⟩, by decide⟩, hhead⟩
  · intro context hctx
    have hnl : '\n' ∉ context.data := by
      unfold Split at hctx
      obtain ⟨l, hl, rfl⟩ := List.mem_map.1 hctx
      exact splitLoop_pieces '\n' _ [] (by simp) l hl
    have e : ("#   " ++ context ++ "\n").data =
        ('#' :: ' ' :: ' ' :: ' ' :: context.data) ++ ['\n'] := by
      simp [String.data_append]
    rw [e]
    refine CommentBlock_line _ ?_ (Or.inr rfl)
    simp only [List.mem_cons, not_or]
    exact ⟨by decide, by decide, by decide, by decide, hnl⟩

theorem editorTemplate_block (s : List Message)
    (h : ∀ m ∈ s, '\n' ∉ m.Sha1.data ∧ '\n' ∉ m.ParentSha1.data ∧ '\n' ∉ m.Role.data) :
    CommentBlock (editorTemplate s).data := by
  unfold editorTemplate
  apply CommentBlock_foldl editorComment
  · exact CommentBlock_append ['\n'] ['\n'] (CommentBlock_line [] (by simp) (Or.inl rfl))
      (CommentBlock_line [] (by simp) (Or.inl rfl))
  · intro m hm
    obtain ⟨h1, h2, h3⟩ := h m (List.mem_reverse.1 hm)
    exact editorComment_block m h1 h2 h3

theorem editorTemplate_lines (s : List Message)
    (h : ∀ m ∈ s, '\n' ∉ m.Sha1.data ∧ '\n' ∉ m.ParentSha1.data ∧ '\n' ∉ m.Role.data) :
    ∀ d ∈ Split (editorTemplate s) '\n', d = "" ∨ d.data.head? = some '#' := by
  intro d hd
  unfold Split at hd
  obtain ⟨l, hl, rfl⟩ := List.mem_map.1 hd
  rcases CommentBlock_lines _ (editorTemplate_block s h) l hl with e | e
  · left
    subst e
    rfl
  · right
    exact e

/-! ## The command table -/

theorem startingWith_cons (c : cmd) (rest : List cmd) (t : String) :
    startingWith (c :: rest) t =
      if HasPrefix c.name t then c :: startingWith rest t else startingWith rest t := by
  unfold startingWith
  by_cases h : HasPrefix c.name t = true
  · have h' := (HasPrefix_iff _ _).1 h
    simp [List.filter_cons, h, h']
  · have h' : ¬ t.data <+: c.name.data := fun hp => h ((HasPrefix_iff _ _).2 hp)
    simp [List.filter_cons, h, h']

theorem matchCommandLoop_matched (t : String) (table : List cmd) (m : String) :
    matchCommandLoop t table true m =
      if startingWith table t = [] then (m, true) else ("", false) := by
  induction table with
  | nil => simp [matchCommandLoop, startingWith]
  | cons c rest ih =>
    rw [startingWith_cons]
    by_cases h : HasPrefix c.name t = true
    · simp [matchCommandLoop, h]
    · simp [matchCommandLoop, h, ih]

theorem matchCommandLoop_unmatched (t : String) (table : List cmd) (m : String) :
    matchCommandLoop t table false m =
      match startingWith table t with
      | [] => (m, false)
      | [c] => (c.name, true)
      | _ :: _ :: _ => ("", false) := by
  induction table with
  | nil => simp [matchCommandLoop, startingWith]
  | cons c rest ih =>
    rw [startingWith_cons]
    by_cases h : HasPrefix c.name t = true
    · simp only [matchCommandLoop, h, if_true, Bool.false_eq_true, if_false]
      rw [matchCommandLoop_matched]
      cases hs : startingWith rest t with
      | nil => simp
      | cons d ds => simp
    · simp only [matchCommandLoop, h, if_false, Bool.false_eq_true]
      exact ih

/-- C1: for every command table and every token `t`, `matchCommand` returns
`(name, true)` if and only if exactly one entry of the table has a name that
starts with `t` and `name` is that entry's name; when no entry or more than one
entry starts with `t` it returns `("", false)`. -/
theorem matchCommand_exactly_one (table : List cmd) (t : String) :
    (∀ name : String, matchCommandIn table t = (name, true) ↔
        ∃ c, table.filter (fun c => decide (t.data <+: c.name.data)) = [c] ∧ c.name = name) ∧
    ((table.filter (fun c => decide (t.data <+: c.name.data))).length ≠ 1 →
        matchCommandIn table t = ("", false)) := by
  have key := matchCommandLoop_unmatched t table ""
  unfold startingWith at key
  unfold matchCommandIn
  rw [key]
  cases hs : table.filter (fun c => decide (t.data <+: c.name.data)) with
  | nil => simp
  | cons d ds =>
    cases ds with
    | nil => simp
    | cons e es => simp

/-- The claim's own example: `history` alone is found from `h`, and no longer
once `help` is in the table too. -/
theorem matchCommand_exactly_one_witness :
    matchCommandIn [⟨"history", ""⟩] "h" = ("history", true) ∧
    matchCommandIn [⟨"history", ""⟩, ⟨"help", ""⟩] "h" = ("", false) :=
  ⟨((matchCommand_exactly_one [⟨"history", ""⟩] "h").1 "history").2
      ⟨⟨"history", ""⟩, by decide, rfl⟩,
   (matchCommand_exactly_one [⟨"history", ""⟩, ⟨"help", ""⟩] "h").2 (by decide)⟩

/-- C10: every command of the fixed table is reachable by its full name, and
no name of the table is a prefix of the name of another entry. -/
theorem matchCommand_full_name :
    (∀ c ∈ availableCommands, matchCommand c.name = (c.name, true)) ∧
    availableCommands.map (fun c => c.name) =
      [":history", ":summary", ":move", ":config", ":editor", ":exit"] ∧
    (∀ c ∈ availableCommands, ∀ d ∈ availableCommands,
        c.name.data <+: d.name.data → c = d) := by
  refine ⟨by decide, by decide, by decide⟩

/-! ## The streaming aggregator -/

theorem StreamLoop_chunks (rs : List ChatCompletionStreamResponse) (cs : List String)
    (tail : ChatCompletionStream) (data : String) (h : rs.map deltaOf = cs.map some) :
    StreamLoop (rs.map Except.ok ++ tail) data = StreamLoop tail (cs.foldl (· ++ ·) data) := by
  induction rs generalizing cs data with
  | nil =>
    cases cs with
    | nil => rfl
    | cons c cs => simp at h
  | cons r rs ih =>
    cases cs with
    | nil => simp at h
    | cons c cs =>
      simp only [List.map_cons, List.cons.injEq] at h
      obtain ⟨hr, hrest⟩ := h
      cases hch : r.Choices with
      | nil => simp [deltaOf, hch] at hr
      | cons choice more =>
        simp only [deltaOf, hch, List.head?_cons, Option.map_some', Option.some.injEq] at hr
        subst hr
        have step : StreamLoop (.ok r :: (rs.map Except.ok ++ tail)) data =
            StreamLoop (rs.map Except.ok ++ tail) (data ++ choice.Delta.Content) := by
          simp only [StreamLoop, hch]
        rw [List.map_cons, List.cons_append, step, List.foldl_cons]
        exact ih cs (data ++ choice.Delta.Content) hrest

/-- C2: for every finite sequence of chunks `c1..cn` delivered by the stream
and followed by end-of-stream, `Stream` returns the content
`c1 ++ c2 ++ ... ++ cn`, each chunk appended in arrival order, and no error. -/
theorem Stream_completed (rs : List ChatCompletionStreamResponse) (cs : List String)
    (rest : ChatCompletionStream) (h : rs.map deltaOf = cs.map some) :
    Stream (.ok (rs.map Except.ok ++ .error GoError.EOF :: rest)) =
      .returned (String.join cs, none) := by
  unfold Stream
  simp only []
  rw [StreamLoop_chunks rs cs _ "" h]
  simp [StreamLoop, String.join]

/-- The chunks `"Hel"`, `"lo"` and then end-of-stream give `"Hello"`. -/
theorem Stream_completed_witness :
    [chunk "Hel", chunk "lo"].map deltaOf = ["Hel", "lo"].map some ∧
    Stream (.ok [.ok (chunk "Hel"), .ok (chunk "lo"), .error GoError.EOF]) =
      .returned ("Hello", none) :=
  ⟨rfl, Stream_completed [chunk "Hel", chunk "lo"] ["Hel", "lo"] [] rfl⟩

/-- C3, as the claim states it, fails: after the chunk `"Hel"` a cancellation
makes `Stream` return the empty string and the error, not `"Hel"` and no
error. -/
theorem Stream_cancel_drops_chunk :
    Stream (.ok [.ok (chunk "Hel"), .error GoError.Canceled]) =
      .returned ("", some GoError.Canceled) ∧
    Stream (.ok [.ok (chunk "Hel"), .error GoError.Canceled]) ≠ .returned ("Hel", none) := by
  decide

/-- C3, amended: `Stream` has no outcome of its own for a cancellation. For
every sequence of chunks received before it, whenever the client call the
cancellation interrupts ends with an error `e` other than end-of-stream,
`Stream` returns the empty string together with `e` and drops what was
accumulated: so for the `Recv()` after the chunks, `context.Canceled` in
particular, and so for opening the stream, whatever `e` is. The accumulated
content is returned with no error only when `Recv()` reports end-of-stream. -/
theorem Stream_cancelled (rs : List ChatCompletionStreamResponse) (cs : List String)
    (rest : ChatCompletionStream) (e : GoError) (h : rs.map deltaOf = cs.map some) :
    (e ≠ GoError.EOF →
      Stream (.ok (rs.map Except.ok ++ .error e :: rest)) = .returned ("", some e)) ∧
    Stream (.ok (rs.map Except.ok ++ .error GoError.Canceled :: rest)) =
      .returned ("", some GoError.Canceled) ∧
    Stream (.error e) = .returned ("", some e) ∧
    (∀ content : String,
      Stream (.ok (rs.map Except.ok ++ .error e :: rest)) = .returned (content, none) →
      e = GoError.EOF ∧ content = String.join cs) := by
  have hloop : ∀ e' : GoError, Stream (.ok (rs.map Except.ok ++ .error e' :: rest)) =
      if e' = GoError.EOF then .returned (String.join cs, none)
      else .returned ("", some e') := by
    intro e'
    unfold Stream
    simp only []
    rw [StreamLoop_chunks rs cs _ "" h]
    simp [StreamLoop, String.join]
  refine ⟨?_, ?_, rfl, ?_⟩
  · intro he
    rw [hloop e, if_neg he]
  · rw [hloop GoError.Canceled]
    rfl
  · intro content hret
    rw [hloop e] at hret
    by_cases he : e = GoError.EOF
    · rw [if_pos he] at hret
      simp only [Outcome.returned.injEq, Prod.mk.injEq] at hret
      exact ⟨he, hret.1.symm⟩
    · rw [if_neg he] at hret
      simp at hret

/-- The chunk `"Hel"` and then a cancellation give `("", context.Canceled)`; a
cancellation before any chunk, or while the stream is being opened, gives the
empty string and the error of the interrupted call. -/
theorem Stream_cancelled_witness :
    [chunk "Hel"].map deltaOf = ["Hel"].map some ∧
    Stream (.ok [.ok (chunk "Hel"), .error GoError.Canceled]) =
      .returned ("", some GoError.Canceled) ∧
    Stream (.ok [.error GoError.Canceled]) = .returned ("", some GoError.Canceled) ∧
    Stream (.error (GoError.errorString "Post /chat/completions: context canceled")) =
      .returned ("",
        some (GoError.errorString "Post /chat/completions: context canceled")) :=
  ⟨rfl,
   (Stream_cancelled [chunk "Hel"] ["Hel"] [] GoError.Canceled rfl).2.1,
   (Stream_cancelled [] [] [] GoError.Canceled rfl).1 (by decide),
   (Stream_cancelled [] [] []
      (GoError.errorString "Post /chat/completions: context canceled") rfl).2.2.1⟩

/-- C4: for every sequence of chunks, empty or not, followed by an error `e`
of the stream that is not end-of-stream, `Stream` returns the empty string and
exactly `e`; and when opening the stream fails with `e'`, `Stream` returns
`("", e')`. -/
theorem Stream_failed (rs : List ChatCompletionStreamResponse) (cs : List String)
    (rest : ChatCompletionStream) (e : GoError) (h : rs.map deltaOf = cs.map some)
    (he : e ≠ GoError.EOF) :
    Stream (.ok (rs.map Except.ok ++ .error e :: rest)) = .returned ("", some e) ∧
    ∀ e' : GoError, Stream (.error e') = .returned ("", some e') := by
  refine ⟨?_, fun e' => rfl⟩
  unfold Stream
  simp only []
  rw [StreamLoop_chunks rs cs _ "" h]
  simp [StreamLoop, he]

/-- A connection reset after the chunks `"Hel"`, `"lo"`, and after no chunk. -/
theorem Stream_failed_witness :
    Stream (.ok [.ok (chunk "Hel"), .ok (chunk "lo"),
        .error (GoError.errorString "connection reset")]) =
      .returned ("", some (GoError.errorString "connection reset")) ∧
    Stream (.ok [.error (GoError.errorString "connection reset")]) =
      .returned ("", some (GoError.errorString "connection reset")) ∧
    Stream (.error (GoError.errorString "connection reset")) =
      .returned ("", some (GoError.errorString "connection reset")) :=
  ⟨(Stream_failed [chunk "Hel", chunk "lo"] ["Hel", "lo"] []
      (GoError.errorString "connection reset") rfl (by decide)).1,
   (Stream_failed [] [] [] (GoError.errorString "connection reset") rfl (by decide)).1,
   (Stream_failed [] [] [] (GoError.errorString "connection reset") rfl (by decide)).2 _⟩

/-! ## The dispatcher -/

/-- C5: the code at the failing inputs. For `:move` and `:m` without an
argument, with or without white space around, `Parse` does not return an
error: indexing `commands[1]` panics. The conversation is not touched. -/
theorem Parse_move_without_argument {σ : Type} (conv : Conversation σ) (env : EditorEnv)
    (s : σ) :
    Parse ":move" conv env s =
      (.panicked "runtime error: index out of range [1] with length 1", s) ∧
    Parse ":m" conv env s =
      (.panicked "runtime error: index out of range [1] with length 1", s) ∧
    Parse "  :move \n" conv env s =
      (.panicked "runtime error: index out of range [1] with length 1", s) :=
  ⟨rfl, rfl, rfl⟩

/-- C6: the code at the failing inputs. `matchCommand` resolves `:exit` and
`:ex` to the entry `:exit`, and `Parse` then falls through every branch and
returns the error `unknown command`. -/
theorem Parse_exit_unknown {σ : Type} (conv : Conversation σ) (env : EditorEnv) (s : σ) :
    matchCommand ":exit" = (":exit", true) ∧
    matchCommand ":ex" = (":exit", true) ∧
    Parse ":exit" conv env s =
      (.returned ("", false, some (GoError.errorString "unknown command")), s) ∧
    Parse ":ex" conv env s =
      (.returned ("", false, some (GoError.errorString "unknown command")), s) :=
  ⟨by decide, by decide, rfl, rfl⟩

/-- C8: for every conversation state, `changeHead` called with an empty
partial hash returns the error `No SHA1 partial provided` and leaves the
conversation as it was, whatever its `ChangeHead` does: `ChangeHead` is not
called. `Parse` reaches this whenever the token after the move command is
empty. -/
theorem changeHead_empty {σ : Type} (conv : Conversation σ) (env : EditorEnv) (s : σ) :
    changeHead "" conv s = (some (GoError.errorString "No SHA1 partial provided"), s) ∧
    ∀ (input first : String) (rest : List String),
      Split (TrimSpace input) ' ' = first :: "" :: rest →
      matchCommand first = (":move", true) →
      Parse input conv env s =
        (.returned ("", false, some (GoError.errorString "No SHA1 partial provided")), s) := by
  refine ⟨rfl, ?_⟩
  intro input first rest hsplit hmatch
  unfold Parse
  simp only [hsplit, hmatch]
  rfl

/-- The input `:move  abc`, with two spaces: no call of `ChangeHead` is counted,
while `:move abc` counts one. -/
theorem changeHead_empty_witness :
    Split (TrimSpace ":move  abc") ' ' = [":move", "", "abc"] ∧
    Parse ":move  abc" countingConversation idleEditorEnv 0 =
      (.returned ("", false, some (GoError.errorString "No SHA1 partial provided")), 0) ∧
    Parse ":move abc" countingConversation idleEditorEnv 0 =
      (.returned ("", false, some (GoError.errorString "not found")), 1) :=
  ⟨by decide,
   (changeHead_empty countingConversation idleEditorEnv 0).2 ":move  abc" ":move" ["abc"]
      (by decide) (by decide),
   by decide⟩

/-- C7: for every text read back from the editor, `openEditor` returns
`(result, true, nil)` exactly when the text with every line starting with `#`
removed contains a character that is not white space, and then `result` is the
remaining lines in their order, each followed by a newline; otherwise it
returns `("", false, nil)`. -/
theorem openEditor_edited {σ : Type} (conv : Conversation σ) (env : EditorEnv) (st : σ)
    (tmpName text : String) (hc : env.CreateTemp = .ok tmpName)
    (hw : env.WriteString (editorTemplate (conv.MessagesFromHead st)) = none)
    (hr : env.Run (editorArgv env tmpName) (editorTemplate (conv.MessagesFromHead st)) =
      (none, text))
    (hf : env.ReadFile = none) :
    ((∃ d ∈ keptLines text, ∃ c ∈ d.data, isSpace c = false) →
        openEditor conv env st = (keptText text, true, none)) ∧
    ((¬ ∃ d ∈ keptLines text, ∃ c ∈ d.data, isSpace c = false) →
        openEditor conv env st = ("", false, none)) ∧
    ((∃ result, openEditor conv env st = (result, true, none)) ↔
        ∃ d ∈ keptLines text, ∃ c ∈ d.data, isSpace c = false) := by
  rw [openEditor_read conv env st tmpName text hc hw hr hf, editorResult_eq_keptText]
  by_cases h : ∃ d ∈ keptLines text, ∃ c ∈ d.data, isSpace c = false
  · have hlen : ¬ (TrimSpace (keptText text)).length = 0 := fun hz =>
      (keptText_blank_iff text).1 hz h
    simp [hlen, h]
  · have hlen : (TrimSpace (keptText text)).length = 0 := (keptText_blank_iff text).2 h
    simp [hlen, h]

/-- A text with a comment line between two lines of input is committed without
the comment; a text of one comment line and a line of blanks is not
committed. -/
theorem openEditor_edited_witness :
    openEditor countingConversation (typingEditorEnv "hello\n# note\n\nworld") 0 =
      ("hello\n\nworld\n", true, none) ∧
    openEditor countingConversation (typingEditorEnv "# note\n  \n") 0 = ("", false, none) :=
  ⟨(openEditor_edited countingConversation (typingEditorEnv "hello\n# note\n\nworld") 0
      "/tmp/aski-editor-1" "hello\n# note\n\nworld" rfl rfl rfl rfl).1
      ⟨"hello", by decide, 'h', by decide, by decide⟩,
   (openEditor_edited countingConversation (typingEditorEnv "# note\n  \n") 0
      "/tmp/aski-editor-1" "# note\n  \n" rfl rfl rfl rfl).2.1 (by decide)⟩

/-- C9: for every list of messages from HEAD whose hashes, parent hashes and
roles contain no newline, whatever the contents, the template `openEditor`
writes to the temp file consists only of empty lines and lines starting with
`#`; hence if the editor leaves the file as it is, `openEditor` returns
`("", false, nil)`. -/
theorem editorTemplate_unchanged (s : List Message)
    (h : ∀ m ∈ s, '\n' ∉ m.Sha1.data ∧ '\n' ∉ m.ParentSha1.data ∧ '\n' ∉ m.Role.data) :
    (∀ d ∈ Split (editorTemplate s) '\n', d = "" ∨ d.data.head? = some '#') ∧
    ∀ (σ : Type) (conv : Conversation σ) (env : EditorEnv) (st : σ) (tmpName : String),
      conv.MessagesFromHead st = s →
      env.CreateTemp = .ok tmpName →
      env.WriteString (editorTemplate s) = none →
      env.Run (editorArgv env tmpName) (editorTemplate s) = (none, editorTemplate s) →
      env.ReadFile = none →
      openEditor conv env st = ("", false, none) := by
  refine ⟨editorTemplate_lines s h, ?_⟩
  intro σ conv env st tmpName hs hc hw hr hf
  subst hs
  rw [openEditor_read conv env st tmpName _ hc hw hr hf, editorResult_eq_keptText]
  have hblank : (TrimSpace (keptText (editorTemplate (conv.MessagesFromHead st)))).length = 0 := by
    rw [keptText_blank_iff]
    rintro ⟨d, hd, c, hc', _⟩
    unfold keptLines at hd
    obtain ⟨hmem, hkeep⟩ := List.mem_filter.1 hd
    rcases editorTemplate_lines _ h d hmem with e | e
    · subst e
      simp at hc'
    · simp [e] at hkeep
  simp [hblank]

/-- The template of the sample conversation, left as it is by the editor. -/
theorem editorTemplate_unchanged_witness :
    editorTemplate (sampleConversation.MessagesFromHead ()) =
      "\n\n#\n# abcdef -> 012345 [assistant] Head\n#   \n#\n# 012345 ->  [user] \n#   a\n#   \n#   b\n" ∧
    openEditor sampleConversation idleEditorEnv () = ("", false, none) :=
  ⟨by decide,
   (editorTemplate_unchanged (sampleConversation.MessagesFromHead ()) (by decide)).2
      Unit sampleConversation idleEditorEnv () "/tmp/aski-editor-1" rfl rfl rfl rfl rfl⟩

end Polo
